import Mathlib

/-!
Verification of the preact-markdown repository: a shallow embedding of the
tree-to-element converters (src/index.ts and src/lite.ts), the unified
processor configuration (src/index.ts, Markdown), and the lite pipeline's
use of the module-global marked parser, together with theorems settling the
specification's claims about them.
-/

namespace PreactMarkdown

/-- JavaScript property values as they occur in HAST property maps and in
Preact props: strings, arrays of strings (HAST class lists), numbers
(the key prop), and booleans. -/
inductive JVal where
  | str (s : String)
  | arr (xs : List String)
  | num (n : Nat)
  | bool (b : Bool)
  deriving DecidableEq

/-- The JS string method toLowerCase(), over the character list (tag names
are ASCII, where Char.toLower agrees with JS). -/
def strToLower (s : String) : String :=
  ⟨s.data.map Char.toLower⟩

/-- The JS string method startsWith(p), over the character lists. -/
def strStartsWith (s p : String) : Bool :=
  p.data.isPrefixOf s.data

/-- The JS string method trim(): strip whitespace from both ends. -/
def strTrim (s : String) : String :=
  ⟨((s.data.dropWhile Char.isWhitespace).reverse.dropWhile
      Char.isWhitespace).reverse⟩

/-- JS object assignment obj[k] = v over an insertion-ordered object:
overwrite in place when the key is present, append otherwise. -/
def objInsert : List (String × JVal) → String → JVal → List (String × JVal)
  | [], k, v => [(k, v)]
  | (k1, v1) :: rest, k, v =>
      if k1 == k then (k1, v) :: rest else (k1, v1) :: objInsert rest k v

/-- JS object property read obj[k]. -/
def objLookup : List (String × JVal) → String → Option JVal
  | [], _ => none
  | (k1, v1) :: rest, k => if k1 == k then some v1 else objLookup rest k

/-- An entry of the caller-supplied components override map
(src/index.ts Components, src/types.ts Components): either a replacement
tag name or a render function, the latter identified opaquely. -/
inductive ComponentEntry where
  | tagName (t : String)
  | render (id : Nat)
  deriving DecidableEq

/-- The caller-supplied override map, from tag name to entry. -/
abbrev Components := List (String × ComponentEntry)

/-- JS truthiness of a looked-up map entry: a render function is truthy,
a tag-name string is truthy iff it is nonempty. -/
def ComponentEntry.truthy : ComponentEntry → Bool
  | ComponentEntry.tagName t => t != ""
  | ComponentEntry.render _ => true

/-- The expression components[tagName] || tagName from src/index.ts line 159
and src/lite.ts line 82. -/
def componentsLookup (components : Components) (tag : String) : ComponentEntry :=
  match components.lookup tag with
  | some e => if e.truthy then e else ComponentEntry.tagName tag
  | none => ComponentEntry.tagName tag

/-- A HAST node (the hast RootContent union used by src/index.ts): a text
node, an element node, or a node of any other kind (comment, doctype, ...)
identified by its kind string. -/
inductive HastNode where
  | text (value : String)
  | element (tagName : String) (properties : List (String × JVal))
      (children : List HastNode)
  | other (kind : String)

/-- A Preact child as produced by the converters: either a bare string
(returned for text nodes) or a VNode built by h(Component, props, ...children),
recording the resolved component, the props object, and the children. -/
inductive PNode where
  | text (s : String)
  | elem (component : ComponentEntry) (props : List (String × JVal))
      (children : List PNode)

/-- hastPropsToPreact, one iteration of its for-of loop (src/index.ts
lines 122-132): className/class become class with arrays joined by a space,
htmlFor becomes for, data or aria prefixed and all remaining keys pass
through unchanged. -/
def hastPropStep (props : List (String × JVal)) (kv : String × JVal) :
    List (String × JVal) :=
  let (key, value) := kv
  if key == "className" || key == "class" then
    objInsert props "class"
      (match value with
        | JVal.arr xs => JVal.str (String.intercalate " " xs)
        | v => v)
  else if key == "htmlFor" then
    objInsert props "for" value
  else if strStartsWith key "data" || strStartsWith key "aria" then
    objInsert props key value
  else
    objInsert props key value

/-- hastPropsToPreact (src/index.ts lines 119-135): fold the translation
step over the entries of the HAST properties object, starting from the
empty props object. -/
def hastPropsToPreact (properties : List (String × JVal)) :
    List (String × JVal) :=
  properties.foldl hastPropStep []

mutual

/-- hastToPreact (src/index.ts lines 140-166): text nodes return their raw
string, element nodes translate properties, set props.key to the passed key,
convert children with their original indices and drop null results, and
resolve the component via components[tagName] || tagName; all other node
kinds return null. -/
def hastToPreact : HastNode → Components → Nat → Option PNode
  | HastNode.text v, _, _ => some (PNode.text v)
  | HastNode.element tagName properties children, components, key =>
      some (PNode.elem (componentsLookup components tagName)
        (objInsert (hastPropsToPreact properties) "key" (JVal.num key))
        (hastChildren children components 0))
  | HastNode.other _, _, _ => none

/-- The children conversion of src/index.ts lines 155-157 (and, at the
root, lines 172-174): map hastToPreact over the child list with each
child's index in the original sequence, filtering out null results. -/
def hastChildren : List HastNode → Components → Nat → List PNode
  | [], _, _ => []
  | c :: rest, components, i =>
      match hastToPreact c components i with
      | some n => n :: hastChildren rest components (i + 1)
      | none => hastChildren rest components (i + 1)

end

/-- hastTreeToPreact (src/index.ts lines 171-175): convert the root's
children, indices starting at 0. -/
def hastTreeToPreact (tree : List HastNode) (components : Components) :
    List PNode :=
  hastChildren tree components 0

/-! ## The lite pipeline's DOM-to-element converter (src/lite.ts) -/

/-- A DOM node of the parsed document fragment in src/lite.ts: a text node
(with its textContent), an element node (with its DOM tagName, attribute
list, and childNodes), or a node of any other nodeType (comment, ...). -/
inductive DomNode where
  | textNode (textContent : String)
  | elementNode (tagName : String) (attributes : List (String × String))
      (childNodes : List DomNode)
  | otherNode (kind : String)

/-- The hard-coded tag denylist of src/lite.ts line 53. -/
def liteDenylist : List String := ["script", "iframe", "object", "embed", "form"]

/-- The attribute loop of src/lite.ts lines 60-70, folded over the
element's attributes starting from the initial props object: the class and
for renames are identity substitutions, attributes whose name starts with
on are skipped when sanitize is set, every other attribute value is
assigned under its name. -/
def liteAttrStep (sanitize : Bool) (props : List (String × JVal))
    (attr : String × String) : List (String × JVal) :=
  let name := attr.1
  let name := if name == "class" then "class"
    else if name == "for" then "for"
    else name
  if sanitize && strStartsWith name "on" then props
  else objInsert props name (JVal.str attr.2)

mutual

/-- processNode (src/lite.ts lines 41-87): text nodes return their
textContent (with a JS || fallback to the empty string, identity on
strings), element nodes lowercase the tag, drop denylisted tags when
sanitize is set, build props starting from an object holding only the key,
copy attributes, convert childNodes with a counter incremented for every
child, and resolve the component via components[tagName] || tagName; all
other node types return null. -/
def processNode (sanitize : Bool) (components : Components) :
    DomNode → Nat → Option PNode
  | DomNode.textNode t, _ => some (PNode.text t)
  | DomNode.elementNode tag attrs childNodes, key =>
      let tagName := strToLower tag
      if sanitize && liteDenylist.contains tagName then none
      else
        some (PNode.elem (componentsLookup components tagName)
          (attrs.foldl (liteAttrStep sanitize) [("key", JVal.num key)])
          (processChildren sanitize components childNodes 0))
  | DomNode.otherNode _, _ => none

/-- The child loop of src/lite.ts lines 73-80 (and, for the fragment's
top-level children, lines 89-95): process each child with the running
counter, which advances for every child whether or not it was kept, and
collect the non-null results in order. -/
def processChildren (sanitize : Bool) (components : Components) :
    List DomNode → Nat → List PNode
  | [], _ => []
  | c :: rest, i =>
      match processNode sanitize components c i with
      | some n => n :: processChildren sanitize components rest (i + 1)
      | none => processChildren sanitize components rest (i + 1)

end

/-! ## The full pipeline's processor construction (src/index.ts, Markdown) -/

/-- A plugin installed into the unified processor: the built-in steps of
src/index.ts, or a caller-supplied plugin identified opaquely. -/
inductive PluginId where
  | remarkParse
  | remarkRehype
  | rehypeSanitize
  | user (id : Nat)
  deriving DecidableEq

/-- An argument passed to processor.use after the plugin itself: the
sanitizer's default schema, a caller-supplied schema object, a boolean, or
an opaque options value. -/
inductive UseArg where
  | defaultSchema
  | schemaArg (id : Nat)
  | boolArg (b : Bool)
  | optArg (id : Nat)
  deriving DecidableEq

/-- One processor.use installation: the plugin and its trailing arguments. -/
structure PluginUse where
  plugin : PluginId
  args : List UseArg
  deriving DecidableEq

/-- A caller-supplied entry of remarkPlugins or rehypePlugins: either a
bare plugin, or an array whose head is the plugin and whose tail is its
options (the code branches on Array.isArray). -/
inductive PluginEntry where
  | bare (p : Nat)
  | tuple (p : Nat) (opts : List UseArg)
  deriving DecidableEq

/-- The plugin installation loops of src/index.ts lines 192-198 and
208-214: for each entry in order, install plugin[0] with the rest of the
tuple as arguments when the entry is an array, the bare plugin otherwise. -/
def applyPlugins (processor : List PluginUse) (plugins : List PluginEntry) :
    List PluginUse :=
  plugins.foldl
    (fun proc plugin =>
      match plugin with
      | PluginEntry.bare p => proc ++ [⟨PluginId.user p, []⟩]
      | PluginEntry.tuple p opts => proc ++ [⟨PluginId.user p, opts⟩])
    processor

/-- The sanitize prop of the full pipeline: a boolean or a schema object. -/
inductive SanitizeOpt where
  | flag (b : Bool)
  | schema (id : Nat)
  deriving DecidableEq

/-- JS truthiness of the sanitize prop (the if (sanitize) guard on
src/index.ts line 203): false is falsy, true and every object are truthy. -/
def SanitizeOpt.truthy : SanitizeOpt → Bool
  | SanitizeOpt.flag b => b
  | SanitizeOpt.schema _ => true

/-- The ternary on src/index.ts line 204:
sanitize === true ? defaultSchema : sanitize. -/
def sanitizeUseArg : SanitizeOpt → UseArg
  | SanitizeOpt.flag true => UseArg.defaultSchema
  | SanitizeOpt.flag false => UseArg.boolArg false
  | SanitizeOpt.schema id => UseArg.schemaArg id

/-- The processor pipeline assembled by Markdown (src/index.ts lines
188-214): remarkParse, then the remark plugins in array order, then
remarkRehype with the remarkRehypeOptions, then rehypeSanitize when the
sanitize prop is truthy, then the rehype plugins in array order. -/
def buildProcessor (remarkPlugins rehypePlugins : List PluginEntry)
    (sanitize : SanitizeOpt) (remarkRehypeOptions : Nat) : List PluginUse :=
  let processor : List PluginUse := [⟨PluginId.remarkParse, []⟩]
  let processor := applyPlugins processor remarkPlugins
  let processor :=
    processor ++ [⟨PluginId.remarkRehype, [UseArg.optArg remarkRehypeOptions]⟩]
  let processor :=
    if sanitize.truthy then
      processor ++ [⟨PluginId.rehypeSanitize, [sanitizeUseArg sanitize]⟩]
    else processor
  applyPlugins processor rehypePlugins

/-! ## The lite pipeline's render and the module-global marked instance -/

/-- The mutable configuration of the module-global marked instance imported
by src/lite.ts: the extensions installed on it so far, identified opaquely.
Modelled from the spec: the marked library itself is an external dependency;
the spec describes its extensions as extending parsing functionality. -/
structure MarkedState where
  exts : List Nat
  deriving DecidableEq

/-- The marked instance as the module loads: no extensions installed. -/
def markedInitial : MarkedState := ⟨[]⟩

/-- marked.use(...extensions) (src/lite.ts line 160): installs the given
extensions onto the module-global instance, accumulating with whatever was
installed before. -/
def markedUse (st : MarkedState) (extensions : List Nat) : MarkedState :=
  ⟨st.exts ++ extensions⟩

/-- Modelled from the spec: marked.parse (src/lite.ts line 164), the
external markdown-to-HTML-string parser. It is deterministic in the input
string, the options, and the extensions installed on the instance, and
extensions extend parsing functionality, so the result depends on all
three; modelled opaquely as a tagged rendering of those inputs. -/
def markedParse (st : MarkedState) (input : String) (options : Nat) : String :=
  String.intercalate " " (st.exts.map (fun n => toString n)) ++ "|"
    ++ toString options ++ "|" ++ input

/-- Modelled from the spec: browser-native HTML parsing of the html string
into a document fragment (the template element of src/lite.ts lines 35-39).
The DOM parser is external and stateless; only its determinism in the html
string matters to the claims settled here, so it is modelled as a fragment
holding the string as one text node (element structure is exercised through
direct DomNode inputs in the other theorems). -/
def domParse (html : String) : List DomNode :=
  [DomNode.textNode html]

/-- htmlToPreact (src/lite.ts lines 29-98): parse the trimmed html string
into a fragment and process its top-level child nodes with a running key
counter. -/
def htmlToPreact (html : String) (components : Components) (sanitize : Bool) :
    List PNode :=
  processChildren sanitize components (domParse (strTrim html)) 0

/-- The props of the lite Markdown component (src/lite.ts lines 148-156),
with external values identified opaquely. -/
structure LiteProps where
  children : String
  wrapper : String
  className : String
  sanitize : Bool
  markedOptions : Nat
  extensions : List Nat
  components : Components

/-- The render of the lite Markdown component (src/lite.ts lines 148-176)
as a transition on the module-global marked state: when the extensions prop
is nonempty it is installed onto the global instance with marked.use, the
markdown is parsed by that instance, the html is converted, and the result
is wrapped in h(wrapper, { className }, ...content). -/
def liteRender (st : MarkedState) (p : LiteProps) : MarkedState × PNode :=
  let st := if p.extensions.length > 0 then markedUse st p.extensions else st
  let html := markedParse st p.children p.markedOptions
  let content := htmlToPreact html p.components p.sanitize
  (st, PNode.elem (ComponentEntry.tagName p.wrapper)
    [("className", JVal.str p.className)] content)

/-- The marked state left behind by a sequence of lite renders. -/
def liteRenderSeq (st : MarkedState) (ps : List LiteProps) : MarkedState :=
  ps.foldl (fun s p => (liteRender s p).1) st

/-- Specification-side reading of the caller plugin lists used by the plugin
ordering claim: each entry contributes one installation, a tuple its plugin
with its trailing options, a bare entry its plugin alone. -/
def entryUses (plugins : List PluginEntry) : List PluginUse :=
  plugins.map (fun e =>
    match e with
    | PluginEntry.bare p => ⟨PluginId.user p, []⟩
    | PluginEntry.tuple p opts => ⟨PluginId.user p, opts⟩)

/-! ## Helper lemmas -/

theorem objLookup_objInsert :
    ∀ (props : List (String × JVal)) (k : String) (v : JVal),
      objLookup (objInsert props k v) k = some v
  | [], k, v => by simp [objInsert, objLookup]
  | (k1, v1) :: rest, k, v => by
      by_cases h : k1 = k
      · simp [objInsert, objLookup, h]
      · simp [objInsert, objLookup, h, objLookup_objInsert rest k v]

theorem objLookup_objInsert_ne :
    ∀ (props : List (String × JVal)) (k n : String) (v : JVal), n ≠ k →
      objLookup (objInsert props n v) k = objLookup props k
  | [], k, n, v, h => by simp [objInsert, objLookup, h]
  | (k1, v1) :: rest, k, n, v, h => by
      by_cases h1 : k1 = n
      · simp [objInsert, objLookup, h1, h]
      · by_cases h2 : k1 = k
        · simp [objInsert, objLookup, h1, h2, Ne.symm h]
        · simp [objInsert, objLookup, h1, h2,
            objLookup_objInsert_ne rest k n v h]

theorem mem_objInsert :
    ∀ {props : List (String × JVal)} {k n : String} {v w : JVal},
      (n, w) ∈ objInsert props k v → n = k ∨ (n, w) ∈ props := by
  intro props
  induction props with
  | nil => intro k n v w h; simp [objInsert] at h; exact Or.inl h.1
  | cons hd tl ih =>
      intro k n v w h
      obtain ⟨k1, v1⟩ := hd
      by_cases h1 : k1 = k
      · simp [objInsert, h1] at h
        rcases h with ⟨he, _⟩ | hm
        · exact Or.inl he
        · exact Or.inr (List.mem_cons_of_mem _ hm)
      · simp [objInsert, h1] at h
        rcases h with ⟨he1, he2⟩ | hm
        · exact Or.inr (by simp [he1, he2])
        · rcases ih hm with hk | hp
          · exact Or.inl hk
          · exact Or.inr (List.mem_cons_of_mem _ hp)

/-- The attribute renames of src/lite.ts lines 63-64 are identity
substitutions, so one loop iteration either skips an on-named attribute
(when sanitizing) or assigns the value under the attribute's own name. -/
theorem liteAttrStep_eq (sanitize : Bool) (props : List (String × JVal))
    (a : String × String) :
    liteAttrStep sanitize props a =
      if sanitize && strStartsWith a.1 "on" then props
      else objInsert props a.1 (JVal.str a.2) := by
  obtain ⟨n, v⟩ := a
  by_cases h1 : n = "class"
  · subst h1; simp [liteAttrStep]
  · by_cases h2 : n = "for"
    · subst h2; simp [liteAttrStep]
    · simp [liteAttrStep, h1, h2]

/-- After the sanitizing attribute loop, no prop name starts with on,
provided none did before the loop. -/
theorem liteAttrFold_no_on :
    ∀ (attrs : List (String × String)) (props : List (String × JVal)),
      (∀ n v, (n, v) ∈ props → strStartsWith n "on" = false) →
      ∀ n v, (n, v) ∈ attrs.foldl (liteAttrStep true) props →
        strStartsWith n "on" = false
  | [], props, hp, n, v, h => hp n v h
  | a :: rest, props, hp, n, v, h => by
      refine liteAttrFold_no_on rest (liteAttrStep true props a) ?_ n v h
      intro m w hm
      rw [liteAttrStep_eq] at hm
      by_cases hs : strStartsWith a.1 "on" = true
      · simp [hs] at hm
        exact hp m w hm
      · simp [hs] at hm
        rcases mem_objInsert hm with he | hmem
        · subst he
          simpa using hs
        · exact hp m w hmem

/-- An attribute loop that never meets an attribute named k leaves the
props object's k entry unchanged. -/
theorem liteAttrFold_lookup :
    ∀ (attrs : List (String × String)) (sanitize : Bool)
      (props : List (String × JVal)) (k : String),
      (∀ a ∈ attrs, a.1 ≠ k) →
      objLookup (attrs.foldl (liteAttrStep sanitize) props) k = objLookup props k
  | [], _, props, k, _ => rfl
  | a :: rest, sanitize, props, k, h => by
      have hrest := liteAttrFold_lookup rest sanitize
        (liteAttrStep sanitize props a) k
        (fun b hb => h b (List.mem_cons_of_mem _ hb))
      rw [List.foldl_cons, hrest, liteAttrStep_eq]
      by_cases hs : (sanitize && strStartsWith a.1 "on") = true
      · simp [hs]
      · simp [hs,
          objLookup_objInsert_ne props k a.1 (JVal.str a.2)
            (h a (List.mem_cons_self a rest))]

/-- The children conversion of the full pipeline is the in-order filterMap
of the node conversion over the index-annotated child list. -/
theorem hastChildren_enumFrom (cs : List HastNode) (components : Components) :
    ∀ i, hastChildren cs components i =
      (List.enumFrom i cs).filterMap (fun p => hastToPreact p.2 components p.1) := by
  induction cs with
  | nil => intro i; simp [hastChildren, List.enumFrom]
  | cons c rest ih =>
      intro i
      rw [hastChildren]
      cases h : hastToPreact c components i <;>
        simp [List.enumFrom, List.filterMap_cons, h, ih (i + 1)]

/-- The child loop of the lite pipeline is the in-order filterMap of the
node conversion over the index-annotated child list. -/
theorem processChildren_enumFrom (sanitize : Bool) (components : Components)
    (cs : List DomNode) :
    ∀ i, processChildren sanitize components cs i =
      (List.enumFrom i cs).filterMap
        (fun p => processNode sanitize components p.2 p.1) := by
  induction cs with
  | nil => intro i; simp [processChildren, List.enumFrom]
  | cons c rest ih =>
      intro i
      rw [processChildren]
      cases h : processNode sanitize components c i <;>
        simp [List.enumFrom, List.filterMap_cons, h, ih (i + 1)]

theorem applyPlugins_eq (plugins : List PluginEntry) :
    ∀ processor, applyPlugins processor plugins = processor ++ entryUses plugins := by
  induction plugins with
  | nil => intro proc; simp [applyPlugins, entryUses]
  | cons e rest ih =>
      intro proc
      cases e with
      | bare p =>
          have h : applyPlugins proc (PluginEntry.bare p :: rest)
              = applyPlugins (proc ++ [⟨PluginId.user p, []⟩]) rest := rfl
          rw [h, ih]
          simp [entryUses]
      | tuple p opts =>
          have h : applyPlugins proc (PluginEntry.tuple p opts :: rest)
              = applyPlugins (proc ++ [⟨PluginId.user p, opts⟩]) rest := rfl
          rw [h, ih]
          simp [entryUses]

/-- Decomposition of the assembled processor: remarkParse, the remark
plugins in order, remarkRehype, the optional sanitizer, the rehype plugins
in order. -/
theorem buildProcessor_decomp (r rh : List PluginEntry) (s : SanitizeOpt)
    (o : Nat) :
    buildProcessor r rh s o =
      [⟨PluginId.remarkParse, []⟩] ++ entryUses r
        ++ [⟨PluginId.remarkRehype, [UseArg.optArg o]⟩]
        ++ (if s.truthy then [⟨PluginId.rehypeSanitize, [sanitizeUseArg s]⟩]
            else [])
        ++ entryUses rh := by
  rw [buildProcessor]
  rw [applyPlugins_eq r]
  by_cases h : s.truthy = true <;>
    simp [h, applyPlugins_eq rh, List.append_assoc]

/-- Every use contributed by a caller plugin list is a user plugin. -/
theorem entryUses_plugin {u : PluginUse} {ps : List PluginEntry}
    (h : u ∈ entryUses ps) : ∃ p, u.plugin = PluginId.user p := by
  rw [entryUses, List.mem_map] at h
  obtain ⟨e, _, he⟩ := h
  cases e with
  | bare p => exact ⟨p, by rw [← he]⟩
  | tuple p opts => exact ⟨p, by rw [← he]⟩

/-! ## Claims -/

/-- C1: for every element node, both converters resolve the component by
looking the (lite: lowercased) tag name up in the override map: a render
function entry is used as the component, a nonempty replacement tag-name
entry substitutes the tag, and an absent entry leaves the original tag;
the produced element carries the translated attributes and the recursively
converted children. -/
theorem override_map_lookup :
    (∀ (comps : Components) (t : String) (id : Nat),
        comps.lookup t = some (ComponentEntry.render id) →
        componentsLookup comps t = ComponentEntry.render id)
  ∧ (∀ (comps : Components) (t r : String),
        comps.lookup t = some (ComponentEntry.tagName r) → r ≠ "" →
        componentsLookup comps t = ComponentEntry.tagName r)
  ∧ (∀ (comps : Components) (t : String),
        comps.lookup t = none →
        componentsLookup comps t = ComponentEntry.tagName t)
  ∧ (∀ (comps : Components) (t : String) (props : List (String × JVal))
        (cs : List HastNode) (key : Nat),
        hastToPreact (HastNode.element t props cs) comps key =
          some (PNode.elem (componentsLookup comps t)
            (objInsert (hastPropsToPreact props) "key" (JVal.num key))
            (hastChildren cs comps 0)))
  ∧ (∀ (sanitize : Bool) (comps : Components) (tag : String)
        (attrs : List (String × String)) (cs : List DomNode) (key : Nat),
        (sanitize && liteDenylist.contains (strToLower tag)) = false →
        processNode sanitize comps (DomNode.elementNode tag attrs cs) key =
          some (PNode.elem (componentsLookup comps (strToLower tag))
            (attrs.foldl (liteAttrStep sanitize) [("key", JVal.num key)])
            (processChildren sanitize comps cs 0))) := by
  refine ⟨?_, ?_, ?_, ?_, ?_⟩
  · intro comps t id h
    simp [componentsLookup, h, ComponentEntry.truthy]
  · intro comps t r h hr
    simp [componentsLookup, h, ComponentEntry.truthy, hr]
  · intro comps t h
    simp [componentsLookup, h]
  · intro comps t props cs key
    rfl
  · intro sanitize comps tag attrs cs key h
    simp [processNode, h]
    intro hs
    subst hs
    simpa using h

theorem override_map_lookup_witness :
    componentsLookup [("a", ComponentEntry.render 3)] "a" = ComponentEntry.render 3
  ∧ componentsLookup [("em", ComponentEntry.tagName "strong")] "em" =
      ComponentEntry.tagName "strong"
  ∧ componentsLookup [] "p" = ComponentEntry.tagName "p"
  ∧ processNode true [] (DomNode.elementNode "div" [] []) 0 =
      some (PNode.elem (componentsLookup [] "div") [("key", JVal.num 0)]
        (processChildren true [] [] 0)) :=
  ⟨override_map_lookup.1 [("a", ComponentEntry.render 3)] "a" 3 rfl,
   override_map_lookup.2.1 [("em", ComponentEntry.tagName "strong")] "em"
     "strong" rfl (by decide),
   override_map_lookup.2.2.1 [] "p" rfl,
   override_map_lookup.2.2.2.2 true [] "div" [] [] 0 (by decide)⟩

/-- C2: in the lite pipeline with sanitize on, denylisted tags convert to
null and no prop of a converted element has an on-prefixed name; with
sanitize off the element is converted like any other and every attribute,
on-prefixed ones included, is assigned into the props. -/
theorem lite_sanitize_behavior :
    (∀ (comps : Components) (tag : String) (attrs : List (String × String))
        (cs : List DomNode) (key : Nat),
        liteDenylist.contains (strToLower tag) = true →
        processNode true comps (DomNode.elementNode tag attrs cs) key = none)
  ∧ (∀ (comps : Components) (tag : String) (attrs : List (String × String))
        (cs : List DomNode) (key : Nat) (cmp : ComponentEntry)
        (ps : List (String × JVal)) (chs : List PNode),
        processNode true comps (DomNode.elementNode tag attrs cs) key =
          some (PNode.elem cmp ps chs) →
        ∀ n v, (n, v) ∈ ps → strStartsWith n "on" = false)
  ∧ (∀ (comps : Components) (tag : String) (attrs : List (String × String))
        (cs : List DomNode) (key : Nat),
        processNode false comps (DomNode.elementNode tag attrs cs) key =
          some (PNode.elem (componentsLookup comps (strToLower tag))
            (attrs.foldl (liteAttrStep false) [("key", JVal.num key)])
            (processChildren false comps cs 0)))
  ∧ (∀ (props : List (String × JVal)) (n v : String),
        liteAttrStep false props (n, v) = objInsert props n (JVal.str v)) := by
  refine ⟨?_, ?_, ?_, ?_⟩
  · intro comps tag attrs cs key h
    have hm : strToLower tag ∈ liteDenylist := by simpa using h
    simp [processNode, hm]
  · intro comps tag attrs cs key cmp ps chs h n v hm
    simp [processNode] at h
    refine liteAttrFold_no_on attrs [("key", JVal.num key)] ?_ n v ?_
    · intro m w hmw
      simp at hmw
      rw [hmw.1]
      decide
    · rw [h.2.2.1]
      exact hm
  · intro comps tag attrs cs key
    simp [processNode]
  · intro props n v
    rw [liteAttrStep_eq]
    simp

theorem lite_sanitize_behavior_witness :
    processNode true [] (DomNode.elementNode "script" [] []) 0 = none
  ∧ strStartsWith "key" "on" = false
  ∧ processNode false [] (DomNode.elementNode "script" [("onclick", "x")] []) 0 =
      some (PNode.elem (componentsLookup [] (strToLower "script"))
        ([("onclick", "x")].foldl (liteAttrStep false) [("key", JVal.num 0)])
        (processChildren false [] [] 0))
  ∧ liteAttrStep false [] ("onclick", "x") = objInsert [] "onclick" (JVal.str "x") :=
  ⟨lite_sanitize_behavior.1 [] "script" [] [] 0 (by decide),
   lite_sanitize_behavior.2.1 [] "a" [("onclick", "x")] [] 0
     (ComponentEntry.tagName "a") [("key", JVal.num 0)] [] rfl
     "key" (JVal.num 0) (by decide),
   lite_sanitize_behavior.2.2.1 [] "script" [("onclick", "x")] [] 0,
   lite_sanitize_behavior.2.2.2 [] "onclick" "x"⟩

/-- C3 counterexample: the lite render installs the extensions prop onto
the module-global marked instance, where it persists. Rendering
extension-free props from the initial state and rendering the same props
after an earlier render that supplied extension 7 yield different outputs,
refuting that output is a pure function of the render's own props. -/
theorem lite_render_not_pure :
    (liteRender markedInitial ⟨"md", "div", "", true, 0, [], []⟩).2 =
        PNode.elem (ComponentEntry.tagName "div") [("className", JVal.str "")]
          [PNode.text "|0|md"]
  ∧ (liteRender (liteRender markedInitial ⟨"x", "div", "", true, 0, [7], []⟩).1
        ⟨"md", "div", "", true, 0, [], []⟩).2 =
        PNode.elem (ComponentEntry.tagName "div") [("className", JVal.str "")]
          [PNode.text "7|0|md"]
  ∧ ("|0|md" : String) ≠ "7|0|md" :=
  ⟨rfl, rfl, by decide⟩

/-- C3 amended: a lite render with an empty extensions prop leaves the
module-global marked state untouched, so a render is unaffected by earlier
renders as long as every earlier render supplied an empty extensions list;
a render that supplies extensions installs them onto the shared instance
for all later renders. The full pipeline builds a fresh processor each
render and shares no such state. -/
theorem lite_render_pure_without_extensions :
    (∀ (st : MarkedState) (p : LiteProps), p.extensions = [] →
        (liteRender st p).1 = st)
  ∧ (∀ (st : MarkedState) (ps : List LiteProps) (p : LiteProps),
        (∀ q ∈ ps, q.extensions = []) →
        (liteRender (liteRenderSeq st ps) p).2 = (liteRender st p).2) := by
  have hstate : ∀ (st : MarkedState) (p : LiteProps), p.extensions = [] →
      (liteRender st p).1 = st := by
    intro st p h
    simp [liteRender, h]
  refine ⟨hstate, ?_⟩
  intro st ps p h
  have hseq : liteRenderSeq st ps = st := by
    induction ps generalizing st with
    | nil => rfl
    | cons q rest ih =>
        have h1 : (liteRender st q).1 = st :=
          hstate st q (h q (List.mem_cons_self q rest))
        have h2 : liteRenderSeq st (q :: rest)
            = liteRenderSeq (liteRender st q).1 rest := rfl
        rw [h2, h1, ih st (fun q hq => h q (List.mem_cons_of_mem _ hq))]
  rw [hseq]

theorem lite_render_pure_without_extensions_witness :
    (liteRender markedInitial ⟨"md", "div", "", true, 0, [], []⟩).1 = markedInitial
  ∧ (liteRender
        (liteRenderSeq markedInitial [⟨"a", "div", "", true, 0, [], []⟩])
        ⟨"md", "div", "", true, 0, [], []⟩).2 =
      (liteRender markedInitial ⟨"md", "div", "", true, 0, [], []⟩).2 :=
  ⟨lite_render_pure_without_extensions.1 markedInitial
     ⟨"md", "div", "", true, 0, [], []⟩ rfl,
   lite_render_pure_without_extensions.2 markedInitial
     [⟨"a", "div", "", true, 0, [], []⟩] ⟨"md", "div", "", true, 0, [], []⟩
     (by intro q hq; simp at hq; rw [hq])⟩

/-- C4: in the full pipeline, sanitize = true installs rehypeSanitize with
the default schema, a custom schema installs rehypeSanitize with exactly
that schema, and sanitize = false installs no rehypeSanitize step at all;
in the two former cases every rehypeSanitize installation carries the
stated schema argument. -/
theorem sanitize_prop_selection :
    (∀ (r rh : List PluginEntry) (o : Nat),
        (⟨PluginId.rehypeSanitize, [UseArg.defaultSchema]⟩ : PluginUse) ∈
          buildProcessor r rh (SanitizeOpt.flag true) o)
  ∧ (∀ (r rh : List PluginEntry) (o id : Nat),
        (⟨PluginId.rehypeSanitize, [UseArg.schemaArg id]⟩ : PluginUse) ∈
          buildProcessor r rh (SanitizeOpt.schema id) o)
  ∧ (∀ (r rh : List PluginEntry) (o : Nat) (u : PluginUse),
        u ∈ buildProcessor r rh (SanitizeOpt.flag false) o →
        u.plugin ≠ PluginId.rehypeSanitize)
  ∧ (∀ (r rh : List PluginEntry) (o : Nat) (u : PluginUse),
        u ∈ buildProcessor r rh (SanitizeOpt.flag true) o →
        u.plugin = PluginId.rehypeSanitize →
        u.args = [UseArg.defaultSchema])
  ∧ (∀ (r rh : List PluginEntry) (o id : Nat) (u : PluginUse),
        u ∈ buildProcessor r rh (SanitizeOpt.schema id) o →
        u.plugin = PluginId.rehypeSanitize →
        u.args = [UseArg.schemaArg id]) := by
  have hnotuser : ∀ {u : PluginUse} {ps : List PluginEntry},
      u ∈ entryUses ps → u.plugin ≠ PluginId.rehypeSanitize := by
    intro u ps h
    obtain ⟨p, hp⟩ := entryUses_plugin h
    rw [hp]
    intro hc
    cases hc
  refine ⟨?_, ?_, ?_, ?_, ?_⟩
  · intro r rh o
    rw [buildProcessor_decomp]
    simp [SanitizeOpt.truthy, sanitizeUseArg]
  · intro r rh o id
    rw [buildProcessor_decomp]
    simp [SanitizeOpt.truthy, sanitizeUseArg]
  · intro r rh o u h
    rw [buildProcessor_decomp] at h
    simp [SanitizeOpt.truthy] at h
    rcases h with h | h | h | h
    · rw [h]; intro hc; cases hc
    · exact hnotuser h
    · rw [h]; intro hc; cases hc
    · exact hnotuser h
  · intro r rh o u h hp
    rw [buildProcessor_decomp] at h
    simp [SanitizeOpt.truthy, sanitizeUseArg] at h
    rcases h with h | h | h | h | h
    · rw [h] at hp; cases hp
    · exact absurd hp (hnotuser h)
    · rw [h] at hp; cases hp
    · rw [h]
    · exact absurd hp (hnotuser h)
  · intro r rh o id u h hp
    rw [buildProcessor_decomp] at h
    simp [SanitizeOpt.truthy, sanitizeUseArg] at h
    rcases h with h | h | h | h | h
    · rw [h] at hp; cases hp
    · exact absurd hp (hnotuser h)
    · rw [h] at hp; cases hp
    · rw [h]
    · exact absurd hp (hnotuser h)

theorem sanitize_prop_selection_witness :
    (⟨PluginId.rehypeSanitize, [UseArg.defaultSchema]⟩ : PluginUse) ∈
      buildProcessor [] [] (SanitizeOpt.flag true) 0
  ∧ (⟨PluginId.rehypeSanitize, [UseArg.schemaArg 9]⟩ : PluginUse) ∈
      buildProcessor [] [] (SanitizeOpt.schema 9) 0
  ∧ (⟨PluginId.remarkParse, []⟩ : PluginUse).plugin ≠ PluginId.rehypeSanitize
  ∧ (⟨PluginId.rehypeSanitize, [UseArg.defaultSchema]⟩ : PluginUse).args =
      [UseArg.defaultSchema] :=
  ⟨sanitize_prop_selection.1 [] [] 0,
   sanitize_prop_selection.2.1 [] [] 0 9,
   sanitize_prop_selection.2.2.1 [] [] 0 ⟨PluginId.remarkParse, []⟩ (by decide),
   sanitize_prop_selection.2.2.2.1 [] [] 0
     ⟨PluginId.rehypeSanitize, [UseArg.defaultSchema]⟩ (by decide) rfl⟩

/-- C5: both converters emit a text node's string value unchanged. -/
theorem text_nodes_unchanged :
    (∀ (v : String) (comps : Components) (key : Nat),
        hastToPreact (HastNode.text v) comps key = some (PNode.text v))
  ∧ (∀ (v : String) (sanitize : Bool) (comps : Components) (key : Nat),
        processNode sanitize comps (DomNode.textNode v) key = some (PNode.text v)) :=
  ⟨fun _ _ _ => rfl, fun _ _ _ _ => rfl⟩

/-- C6: nodes that are neither text nor element convert to null in both
pipelines, and every child sequence is converted as the in-order filterMap
of the node conversion over the index-annotated original children, so
dropped nodes leave no output and the kept children preserve their
relative source order. -/
theorem unknown_nodes_dropped :
    (∀ (kind : String) (comps : Components) (key : Nat),
        hastToPreact (HastNode.other kind) comps key = none)
  ∧ (∀ (kind : String) (sanitize : Bool) (comps : Components) (key : Nat),
        processNode sanitize comps (DomNode.otherNode kind) key = none)
  ∧ (∀ (cs : List HastNode) (comps : Components),
        hastChildren cs comps 0 =
          cs.enum.filterMap (fun p => hastToPreact p.2 comps p.1))
  ∧ (∀ (sanitize : Bool) (comps : Components) (cs : List DomNode),
        processChildren sanitize comps cs 0 =
          cs.enum.filterMap (fun p => processNode sanitize comps p.2 p.1)) :=
  ⟨fun _ _ _ => rfl, fun _ _ _ _ => rfl,
   fun cs comps => hastChildren_enumFrom cs comps 0,
   fun sanitize comps cs => processChildren_enumFrom sanitize comps cs 0⟩

/-- C7: the full pipeline's processor is remarkParse, then the caller's
remark plugins in array order (a tuple entry contributing its plugin with
its trailing options, a bare entry the plugin alone), then the
markdown-to-tree conversion step remarkRehype, then the optional
sanitizer, then the caller's rehype plugins in array order. -/
theorem plugin_install_order (r rh : List PluginEntry) (s : SanitizeOpt)
    (o : Nat) :
    buildProcessor r rh s o =
      [⟨PluginId.remarkParse, []⟩] ++ entryUses r
        ++ [⟨PluginId.remarkRehype, [UseArg.optArg o]⟩]
        ++ (if s.truthy then [⟨PluginId.rehypeSanitize, [sanitizeUseArg s]⟩]
            else [])
        ++ entryUses rh :=
  buildProcessor_decomp r rh s o

/-- C8: the full pipeline's property translation maps className and class
to the class prop (an array value joined into one space-separated string),
htmlFor to the for prop, and passes every other property through with its
key and value unchanged. -/
theorem prop_translation :
    (∀ (ps : List (String × JVal)) (xs : List String),
        hastPropsToPreact (ps ++ [("className", JVal.arr xs)]) =
          objInsert (hastPropsToPreact ps) "class"
            (JVal.str (String.intercalate " " xs)))
  ∧ (∀ (ps : List (String × JVal)) (xs : List String),
        hastPropsToPreact (ps ++ [("class", JVal.arr xs)]) =
          objInsert (hastPropsToPreact ps) "class"
            (JVal.str (String.intercalate " " xs)))
  ∧ (∀ (ps : List (String × JVal)) (v : JVal), (∀ xs, v ≠ JVal.arr xs) →
        hastPropsToPreact (ps ++ [("className", v)]) =
          objInsert (hastPropsToPreact ps) "class" v)
  ∧ (∀ (ps : List (String × JVal)) (v : JVal), (∀ xs, v ≠ JVal.arr xs) →
        hastPropsToPreact (ps ++ [("class", v)]) =
          objInsert (hastPropsToPreact ps) "class" v)
  ∧ (∀ (ps : List (String × JVal)) (v : JVal),
        hastPropsToPreact (ps ++ [("htmlFor", v)]) =
          objInsert (hastPropsToPreact ps) "for" v)
  ∧ (∀ (ps : List (String × JVal)) (k : String) (v : JVal),
        k ≠ "className" → k ≠ "class" → k ≠ "htmlFor" →
        hastPropsToPreact (ps ++ [(k, v)]) =
          objInsert (hastPropsToPreact ps) k v) := by
  have hstep : ∀ (ps : List (String × JVal)) (x : String × JVal),
      hastPropsToPreact (ps ++ [x]) = hastPropStep (hastPropsToPreact ps) x := by
    intro ps x
    rw [hastPropsToPreact, hastPropsToPreact, List.foldl_append]
    rfl
  refine ⟨?_, ?_, ?_, ?_, ?_, ?_⟩
  · intro ps xs
    rw [hstep]
    rfl
  · intro ps xs
    rw [hstep]
    rfl
  · intro ps v hv
    rw [hstep]
    cases v with
    | arr xs => exact absurd rfl (hv xs)
    | str s => rfl
    | num n => rfl
    | bool b => rfl
  · intro ps v hv
    rw [hstep]
    cases v with
    | arr xs => exact absurd rfl (hv xs)
    | str s => rfl
    | num n => rfl
    | bool b => rfl
  · intro ps v
    rw [hstep]
    rfl
  · intro ps k v h1 h2 h3
    rw [hstep]
    simp [hastPropStep, h1, h2, h3]

theorem prop_translation_witness :
    hastPropsToPreact [("className", JVal.str "a")] =
      objInsert (hastPropsToPreact []) "class" (JVal.str "a")
  ∧ hastPropsToPreact [("class", JVal.str "b")] =
      objInsert (hastPropsToPreact []) "class" (JVal.str "b")
  ∧ hastPropsToPreact [("id", JVal.str "z")] =
      objInsert (hastPropsToPreact []) "id" (JVal.str "z") :=
  ⟨prop_translation.2.2.1 [] (JVal.str "a") (fun _ h => JVal.noConfusion h),
   prop_translation.2.2.2.1 [] (JVal.str "b") (fun _ h => JVal.noConfusion h),
   prop_translation.2.2.2.2.2 [] "id" (JVal.str "z")
     (by decide) (by decide) (by decide)⟩

/-- C9: the tree-to-element converter is deterministic — converting the
same tree with the same component map a second time yields structurally
identical output — and total over trees built of text, element and other
node kinds (the source converter reads but never mutates its inputs,
which the functional embedding reflects). -/
theorem converter_deterministic :
    (∀ (tree : List HastNode) (comps : Components),
        hastTreeToPreact tree comps = hastTreeToPreact tree comps)
  ∧ (∀ (tree : List HastNode) (comps : Components),
        ∃ out, hastTreeToPreact tree comps = out) :=
  ⟨fun _ _ => rfl, fun tree comps => ⟨hastTreeToPreact tree comps, rfl⟩⟩

/-- C10 counterexample: in the lite pipeline the props object starts out
holding only the key and the attribute loop then assigns over it, so an
HTML attribute literally named key overwrites the index-derived key prop:
this child at index 0 ends with key prop "x", not 0. -/
theorem key_prop_counterexample :
    processNode false [] (DomNode.elementNode "div" [("key", "x")] []) 0 =
      some (PNode.elem (ComponentEntry.tagName "div") [("key", JVal.str "x")] [])
  ∧ objLookup [("key", JVal.str "x")] "key" ≠ some (JVal.num 0) :=
  ⟨rfl, by decide⟩

/-- C10 amended: every converted element's key prop equals its zero-based
index in its parent's original child sequence (dropped siblings counted,
so sibling keys are distinct and reflect source order): in the full
pipeline unconditionally, because props.key is assigned after the
property translation; in the lite pipeline provided none of the element's
attributes is itself named key. -/
theorem key_prop_is_index :
    (∀ (cs : List HastNode) (comps : Components),
        hastChildren cs comps 0 =
          cs.enum.filterMap (fun p => hastToPreact p.2 comps p.1))
  ∧ (∀ (t : String) (props : List (String × JVal)) (cs : List HastNode)
        (comps : Components) (key : Nat),
        ∃ cmp ps chs,
          hastToPreact (HastNode.element t props cs) comps key =
            some (PNode.elem cmp ps chs) ∧
          objLookup ps "key" = some (JVal.num key))
  ∧ (∀ (sanitize : Bool) (comps : Components) (cs : List DomNode),
        processChildren sanitize comps cs 0 =
          cs.enum.filterMap (fun p => processNode sanitize comps p.2 p.1))
  ∧ (∀ (sanitize : Bool) (comps : Components) (tag : String)
        (attrs : List (String × String)) (cs : List DomNode) (key : Nat)
        (cmp : ComponentEntry) (ps : List (String × JVal)) (chs : List PNode),
        processNode sanitize comps (DomNode.elementNode tag attrs cs) key =
          some (PNode.elem cmp ps chs) →
        (∀ a ∈ attrs, a.1 ≠ "key") →
        objLookup ps "key" = some (JVal.num key)) := by
  refine ⟨fun cs comps => hastChildren_enumFrom cs comps 0, ?_,
    fun sanitize comps cs => processChildren_enumFrom sanitize comps cs 0, ?_⟩
  · intro t props cs comps key
    exact ⟨componentsLookup comps t,
      objInsert (hastPropsToPreact props) "key" (JVal.num key),
      hastChildren cs comps 0, rfl, objLookup_objInsert _ _ _⟩
  · intro sanitize comps tag attrs cs key cmp ps chs h hk
    simp [processNode] at h
    rw [← h.2.2.1, liteAttrFold_lookup attrs sanitize _ "key" hk]
    rfl

theorem key_prop_is_index_witness :
    objLookup [("key", JVal.num 0), ("id", JVal.str "z")] "key" =
      some (JVal.num 0) :=
  key_prop_is_index.2.2.2 false [] "div" [("id", "z")] [] 0
    (ComponentEntry.tagName "div") [("key", JVal.num 0), ("id", JVal.str "z")]
    [] rfl (by decide)

end PreactMarkdown
